import Mathlib

/-!
Verification of the PhotonVision pose-fusion engine (`photonlib::PhotonPoseEstimator`,
declared in `photon-lib/.../PhotonPoseEstimator.h`) and of the contour-filtering pipe
(`FilterContoursPipe.java`), as a shallow embedding over exact rationals.

The strategy implementations of `PhotonPoseEstimator` live in a translation unit that
is not among the sources (only the header with its declarations and documentation is),
so those operations are modelled from the specification; the contour pipe is translated
directly from `FilterContoursPipe.java`.
-/

namespace photonlib

/-- A 3-dimensional translation with exact rational coordinates
(models `frc::Translation3d`; `double` is idealised as `ℚ`). -/
structure Translation3d where
  x : ℚ
  y : ℚ
  z : ℚ
deriving DecidableEq, Repr

namespace Translation3d

def add (a b : Translation3d) : Translation3d := ⟨a.x + b.x, a.y + b.y, a.z + b.z⟩

def neg (a : Translation3d) : Translation3d := ⟨-a.x, -a.y, -a.z⟩

def smul (k : ℚ) (a : Translation3d) : Translation3d := ⟨k * a.x, k * a.y, k * a.z⟩

/-- Squared Euclidean distance between two translations.  Distance comparisons in the
closest-to-pose strategies are modelled with the squared distance, which has the same
minimisers as the Euclidean distance. -/
def sqDist (a b : Translation3d) : ℚ :=
  (a.x - b.x) ^ 2 + (a.y - b.y) ^ 2 + (a.z - b.z) ^ 2

end Translation3d

/-- Modelled from the spec: a 3D rotation, represented by a (not necessarily unit)
quaternion over `ℚ`.  The spec only requires a rotation representation that composes
associatively and inverts; a quaternion scaled by a positive factor represents the same
rotation, so unit normalisation is omitted. -/
structure Rotation3d where
  w : ℚ
  x : ℚ
  y : ℚ
  z : ℚ
deriving DecidableEq, Repr

namespace Rotation3d

/-- Hamilton product of two quaternions. -/
def mul (a b : Rotation3d) : Rotation3d :=
  ⟨a.w * b.w - a.x * b.x - a.y * b.y - a.z * b.z,
   a.w * b.x + a.x * b.w + a.y * b.z - a.z * b.y,
   a.w * b.y - a.x * b.z + a.y * b.w + a.z * b.x,
   a.w * b.z + a.x * b.y - a.y * b.x + a.z * b.w⟩

def conj (a : Rotation3d) : Rotation3d := ⟨a.w, -a.x, -a.y, -a.z⟩

def normSq (a : Rotation3d) : ℚ := a.w ^ 2 + a.x ^ 2 + a.y ^ 2 + a.z ^ 2

/-- Quaternion inverse; total over `ℚ` (the zero quaternion maps to itself). -/
def inv (a : Rotation3d) : Rotation3d :=
  let n := a.normSq
  ⟨a.w / n, -a.x / n, -a.y / n, -a.z / n⟩

/-- Rotate a translation vector by this rotation: the vector part of `q · (0, v) · q⁻¹`. -/
def rotate (q : Rotation3d) (v : Translation3d) : Translation3d :=
  let p := (q.mul ⟨0, v.x, v.y, v.z⟩).mul q.inv
  ⟨p.x, p.y, p.z⟩

/-- The identity rotation. -/
def kIdentity : Rotation3d := ⟨1, 0, 0, 0⟩

end Rotation3d

/-- A rigid-body displacement (models `frc::Transform3d`). -/
structure Transform3d where
  translation : Translation3d
  rotation : Rotation3d
deriving DecidableEq, Repr

namespace Transform3d

/-- Composition of rigid transforms: apply `b` in the frame reached by `a`. -/
def compose (a b : Transform3d) : Transform3d :=
  ⟨a.translation.add (a.rotation.rotate b.translation), a.rotation.mul b.rotation⟩

/-- Inverse of a rigid transform. -/
def inverse (t : Transform3d) : Transform3d :=
  let rinv := t.rotation.inv
  ⟨(rinv.rotate t.translation).neg, rinv⟩

end Transform3d

/-- A field-relative pose (models `frc::Pose3d`). -/
structure Pose3d where
  translation : Translation3d
  rotation : Rotation3d
deriving DecidableEq, Repr

namespace Pose3d

/-- `frc::Pose3d::TransformBy`: move this pose by a rigid transform. -/
def transformBy (p : Pose3d) (t : Transform3d) : Pose3d :=
  ⟨p.translation.add (p.rotation.rotate t.translation), p.rotation.mul t.rotation⟩

end Pose3d

/-- The five pose strategies of `PhotonPoseEstimator.h` (`enum PoseStrategy`). -/
inductive PoseStrategy : Type
  | LOWEST_AMBIGUITY
  | CLOSEST_TO_CAMERA_HEIGHT
  | CLOSEST_TO_REFERENCE_POSE
  | CLOSEST_TO_LAST_POSE
  | AVERAGE_BEST_TARGETS
deriving DecidableEq, Repr

/-- Modelled from the spec: a `TargetObservation` (the header consumes it through
`PhotonPipelineResult`, defined outside these sources): tag identifier, ambiguity score
in `[0,1]` or the sentinel for unknown (modelled as `Option ℚ`), best camera-to-target
transform, and an optional alternate transform. -/
structure TargetObservation where
  tagId : ℤ
  ambiguity : Option ℚ
  bestCameraToTarget : Transform3d
  altCameraToTarget : Option Transform3d
deriving DecidableEq, Repr

/-- Modelled from the spec: a `FrameResult` (the source's `PhotonPipelineResult`, whose
definition is outside these sources): an ordered sequence of target observations plus a
single capture timestamp. -/
structure PhotonPipelineResult where
  targets : List TargetObservation
  timestamp : ℚ
deriving DecidableEq, Repr

/-- `struct EstimatedRobotPose`: the estimated pose plus the capture timestamp. -/
structure EstimatedRobotPose where
  estimatedPose : Pose3d
  timestamp : ℚ
deriving DecidableEq, Repr

/-- Modelled from the spec: one candidate produced by the shared candidate-generation
helper: a field-to-robot pose, the ambiguity of its source observation, and the source
tag id. -/
structure Candidate where
  pose : Pose3d
  ambiguity : Option ℚ
  sourceTagId : ℤ
deriving DecidableEq, Repr

/-- Modelled from the spec: the field layout (`frc::AprilTagFieldLayout`, outside these
sources) as an association list from tag id to field-relative pose, with first-match
lookup. -/
def lookupTag : List (ℤ × Pose3d) → ℤ → Option Pose3d
  | [], _ => none
  | (k, p) :: rest, tagId => if k = tagId then some p else lookupTag rest tagId

/-- The mutable state of a `PhotonPoseEstimator` (the private fields of the header:
`aprilTags`, `strategy`, `m_robotToCamera`, `lastPose`, `referencePose`, plus the
camera height configuration value the spec requires for the camera-height strategy). -/
structure PhotonPoseEstimator where
  aprilTags : List (ℤ × Pose3d)
  strategy : PoseStrategy
  m_robotToCamera : Transform3d
  lastPose : Pose3d
  referencePose : Pose3d
  cameraHeight : ℚ
deriving DecidableEq, Repr

/-- First occurrence of a minimiser of `f`: returns the earliest element attaining the
minimum value of `f` over the list (ties keep the earlier element). -/
def argminFirst (f : α → ℚ) : List α → Option α
  | [] => none
  | a :: rest =>
    match argminFirst f rest with
    | none => some a
    | some b => if f b < f a then some b else some a

end photonlib

namespace photonvision

/-- `FrameStaticProperties` as consumed by the contour filter: only its `imageArea`
field is read (`double` idealised as `ℚ`). -/
structure FrameStaticProperties where
  imageArea : ℚ
deriving DecidableEq, Repr

/-- `DoubleCouple`: a pair of doubles with `getFirst`/`getSecond` accessors, modelled as
a pair of rationals. -/
structure DoubleCouple where
  first : ℚ
  second : ℚ
deriving DecidableEq, Repr

/-- `FilterContoursPipe.FilterContoursParams`: the configured area, aspect-ratio and
extent couples plus the camera properties. -/
structure FilterContoursParams where
  m_area : DoubleCouple
  m_ratio : DoubleCouple
  m_extent : DoubleCouple
  m_camProperties : FrameStaticProperties
deriving DecidableEq, Repr

/-- A contour as observed by `filterContour` through its accessors: `getArea`, the area
of `getMinAreaRect`, and the integer width/height of `getBoundingRect`.  The `faulty`
flag models a contour whose processing throws an exception (the `catch` path of
`process`). -/
structure Contour where
  area : ℚ
  minAreaRectArea : ℚ
  boundingRectWidth : ℤ
  boundingRectHeight : ℤ
  faulty : Bool
deriving DecidableEq, Repr

/-- The pure accept/reject decision of `FilterContoursPipe.filterContour`, translated
from the three early-return checks of the Java source.  `MathUtils.sigmoid` is outside
these sources and is taken as a given map applied to the configured area bounds. -/
def filterContourKeep (sigmoid : ℚ → ℚ) (params : FilterContoursParams)
    (c : Contour) : Bool :=
  let contourArea := c.area
  let areaRatio := contourArea / params.m_camProperties.imageArea
  let minArea := sigmoid params.m_area.first
  let maxArea := sigmoid params.m_area.second
  if areaRatio < minArea ∨ areaRatio > maxArea then false
  else
    let minExtent := params.m_extent.first * c.minAreaRectArea / 100
    let maxExtent := params.m_extent.second * c.minAreaRectArea / 100
    if contourArea ≤ minExtent ∨ contourArea ≥ maxExtent then false
    else
      let aspectRatio := (c.boundingRectWidth : ℚ) / (c.boundingRectHeight : ℚ)
      if aspectRatio < params.m_ratio.first ∨ aspectRatio > params.m_ratio.second then
        false
      else true

/-- `FilterContoursPipe.filterContour` acting on the `m_filteredContours` accumulator:
a faulty contour raises before reaching the final `add`, otherwise the contour is
appended exactly when every check passes. -/
def filterContour (sigmoid : ℚ → ℚ) (params : FilterContoursParams)
    (acc : List Contour) (c : Contour) : Except Unit (List Contour) :=
  if c.faulty then Except.error ()
  else Except.ok (if filterContourKeep sigmoid params c then acc ++ [c] else acc)

/-- The `for` loop of `FilterContoursPipe.process`: each contour is filtered inside a
`try`; an exception is caught and logged and the loop continues with the accumulator
unchanged. -/
def processLoop (sigmoid : ℚ → ℚ) (params : FilterContoursParams) :
    List Contour → List Contour → List Contour
  | acc, [] => acc
  | acc, c :: rest =>
    match filterContour sigmoid params acc c with
    | Except.error _ => processLoop sigmoid params acc rest
    | Except.ok acc2 => processLoop sigmoid params acc2 rest

/-- `FilterContoursPipe.process`: clears `m_filteredContours` (whose pre-call contents
are the third argument), runs the loop over the input, and returns the accumulator. -/
def process (sigmoid : ℚ → ℚ) (params : FilterContoursParams)
    (m_filteredContours : List Contour) (input : List Contour) : List Contour :=
  processLoop sigmoid params [] input

end photonvision

namespace photonlib

/-- Componentwise quaternion addition, used by the weighted rotation blend. -/
def Rotation3d.add (a b : Rotation3d) : Rotation3d :=
  ⟨a.w + b.w, a.x + b.x, a.y + b.y, a.z + b.z⟩

/-- Scaling of a quaternion by a rational factor. -/
def Rotation3d.smul (k : ℚ) (a : Rotation3d) : Rotation3d :=
  ⟨k * a.w, k * a.x, k * a.y, k * a.z⟩

/-- Sum of a list of translations. -/
def translationSum (l : List Translation3d) : Translation3d :=
  l.foldr Translation3d.add ⟨0, 0, 0⟩

/-- Sum of a list of quaternions. -/
def rotationSum (l : List Rotation3d) : Rotation3d :=
  l.foldr Rotation3d.add ⟨0, 0, 0, 0⟩

/-- Whether a candidate's source observation has a known ambiguity. -/
def knownAmbiguity (c : Candidate) : Bool := c.ambiguity.isSome

/-- The ambiguity value of a candidate, defaulting to `0` (only used on candidates whose
ambiguity is known). -/
def ambVal (c : Candidate) : ℚ := c.ambiguity.getD 0

/-- The `1 − ambiguity` confidence weight of a candidate with known ambiguity. -/
def candWeight (c : Candidate) : ℚ := 1 - ambVal c

/-- Modelled from the spec: the shared candidate-generation helper of §4.1 (part of the
`PhotonPoseEstimator` translation unit, outside these sources).  Every observation whose
tag id exists in the field layout yields
`fieldToRobot = FieldLayout[tagId] ∘ inverse(bestCameraToTarget) ∘ inverse(robotToCamera)`;
observations with unknown tag ids are dropped with no error. -/
def candidatesOf (est : PhotonPoseEstimator) (result : PhotonPipelineResult) :
    List Candidate :=
  result.targets.filterMap fun t =>
    (lookupTag est.aprilTags t.tagId).map fun fieldPose =>
      { pose := (fieldPose.transformBy t.bestCameraToTarget.inverse).transformBy
          est.m_robotToCamera.inverse
        ambiguity := t.ambiguity
        sourceTagId := t.tagId }

/-- Modelled from the spec: `PhotonPoseEstimator::LowestAmbiguityStrategy` (declared in
the header, implemented outside these sources).  Selects the candidate whose source
observation has the minimum ambiguity value, first occurrence on ties; candidates whose
ambiguity is unknown carry no value and do not participate. -/
def LowestAmbiguityStrategy (cands : List Candidate) (ts : ℚ) :
    Option EstimatedRobotPose :=
  (argminFirst ambVal (cands.filter knownAmbiguity)).map fun c =>
    ⟨c.pose, ts⟩

/-- Modelled from the spec: `PhotonPoseEstimator::ClosestToCameraHeightStrategy`
(declared in the header, implemented outside these sources).  Selects the candidate
minimising the absolute delta between the implied camera height (from the candidate pose
and the mounting transform) and the configured camera height. -/
def ClosestToCameraHeightStrategy (est : PhotonPoseEstimator)
    (cands : List Candidate) (ts : ℚ) : Option EstimatedRobotPose :=
  (argminFirst
      (fun c => |(c.pose.transformBy est.m_robotToCamera).translation.z - est.cameraHeight|)
      cands).map fun c => ⟨c.pose, ts⟩

/-- Modelled from the spec: shared selection rule of §4.4/§4.5 — the candidate whose
translation is nearest to the given comparison pose (squared Euclidean distance has the
same minimisers). -/
def closestToPose (target : Pose3d) (cands : List Candidate) (ts : ℚ) :
    Option EstimatedRobotPose :=
  (argminFirst (fun c => Translation3d.sqDist c.pose.translation target.translation)
      cands).map fun c => ⟨c.pose, ts⟩

/-- Modelled from the spec: `PhotonPoseEstimator::ClosestToReferencePoseStrategy`
(declared in the header, implemented outside these sources): nearest candidate to
`referencePose`, which is never mutated. -/
def ClosestToReferencePoseStrategy (est : PhotonPoseEstimator)
    (cands : List Candidate) (ts : ℚ) : Option EstimatedRobotPose :=
  closestToPose est.referencePose cands ts

/-- Modelled from the spec: the selection part of the closest-to-last-pose strategy of
§4.5 — nearest candidate to `lastPose` (the `lastPose` write-back is in `Update`). -/
def ClosestToLastPoseStrategy (est : PhotonPoseEstimator)
    (cands : List Candidate) (ts : ℚ) : Option EstimatedRobotPose :=
  closestToPose est.lastPose cands ts

/-- Accumulation loop of the average-best-targets strategy: running weight sum, weighted
translation sum, and weighted quaternion sum; candidates with unknown ambiguity are
skipped entirely. -/
def avgAccum : List Candidate → ℚ × Translation3d × Rotation3d →
    ℚ × Translation3d × Rotation3d
  | [], acc => acc
  | c :: rest, (w, t, r) =>
    match c.ambiguity with
    | none => avgAccum rest (w, t, r)
    | some a =>
      avgAccum rest
        (w + (1 - a),
         t.add (Translation3d.smul (1 - a) c.pose.translation),
         r.add (Rotation3d.smul (1 - a) c.pose.rotation))

/-- Modelled from the spec: `PhotonPoseEstimator::AverageBestTargetsStrategy` (declared
in the header, implemented outside these sources).  Confidence-weighted blend across all
candidates with weight `1 − ambiguity`; candidates with unknown ambiguity are excluded
entirely; if the weight sum is zero the strategy reports no result instead of dividing.
The blended rotation is the weighted quaternion sum scaled by the inverse weight sum
(unit renormalisation is a positive scaling and does not change the rotation
represented, so it is omitted over `ℚ`). -/
def AverageBestTargetsStrategy (cands : List Candidate) (ts : ℚ) :
    Option EstimatedRobotPose :=
  let acc := avgAccum cands (0, ⟨0, 0, 0⟩, ⟨0, 0, 0, 0⟩)
  if acc.1 = 0 then none
  else
    some ⟨⟨Translation3d.smul (1 / acc.1) acc.2.1, Rotation3d.smul (1 / acc.1) acc.2.2⟩,
      ts⟩

/-- Modelled from the spec: `PhotonPoseEstimator::Update(const PhotonPipelineResult&)`
(declared in the header, implemented outside these sources).  Dispatches on the current
strategy over the generated candidates and returns the possibly-absent estimate together
with the post-call engine state; only a successful closest-to-last-pose selection writes
`lastPose`. -/
def Update (est : PhotonPoseEstimator) (result : PhotonPipelineResult) :
    Option EstimatedRobotPose × PhotonPoseEstimator :=
  let cands := candidatesOf est result
  match est.strategy with
  | .LOWEST_AMBIGUITY => (LowestAmbiguityStrategy cands result.timestamp, est)
  | .CLOSEST_TO_CAMERA_HEIGHT =>
    (ClosestToCameraHeightStrategy est cands result.timestamp, est)
  | .CLOSEST_TO_REFERENCE_POSE =>
    (ClosestToReferencePoseStrategy est cands result.timestamp, est)
  | .CLOSEST_TO_LAST_POSE =>
    match ClosestToLastPoseStrategy est cands result.timestamp with
    | none => (none, est)
    | some er => (some er, { est with lastPose := er.estimatedPose })
  | .AVERAGE_BEST_TARGETS => (AverageBestTargetsStrategy cands result.timestamp, est)

/-- Translation addition is associative. -/
theorem Translation3d.transAddAssoc (a b c : Translation3d) :
    (a.add b).add c = a.add (b.add c) := by
  simp only [Translation3d.add, Translation3d.mk.injEq]
  refine ⟨by ring, by ring, by ring⟩

/-- The zero translation is a right unit. -/
theorem Translation3d.transAddZeroRight (a : Translation3d) :
    a.add ⟨0, 0, 0⟩ = a := by
  simp [Translation3d.add]

/-- The zero translation is a left unit. -/
theorem Translation3d.transAddZeroLeft (a : Translation3d) :
    Translation3d.add ⟨0, 0, 0⟩ a = a := by
  simp [Translation3d.add]

/-- Quaternion addition is associative. -/
theorem Rotation3d.rotAddAssoc (a b c : Rotation3d) :
    (a.add b).add c = a.add (b.add c) := by
  simp only [Rotation3d.add, Rotation3d.mk.injEq]
  refine ⟨by ring, by ring, by ring, by ring⟩

/-- The zero quaternion is a right unit. -/
theorem Rotation3d.rotAddZeroRight (a : Rotation3d) :
    a.add ⟨0, 0, 0, 0⟩ = a := by
  simp [Rotation3d.add]

/-- The zero quaternion is a left unit. -/
theorem Rotation3d.rotAddZeroLeft (a : Rotation3d) :
    Rotation3d.add ⟨0, 0, 0, 0⟩ a = a := by
  simp [Rotation3d.add]

/-- Closed form of the averaging loop: starting from an arbitrary accumulator, it adds
the weight sum, the weighted translation sum and the weighted quaternion sum over the
candidates with known ambiguity. -/
theorem avgAccum_spec (cands : List Candidate) (w : ℚ) (t : Translation3d)
    (r : Rotation3d) :
    avgAccum cands (w, t, r) =
      (w + ((cands.filter knownAmbiguity).map candWeight).sum,
       t.add (translationSum ((cands.filter knownAmbiguity).map
         (fun c => Translation3d.smul (candWeight c) c.pose.translation))),
       r.add (rotationSum ((cands.filter knownAmbiguity).map
         (fun c => Rotation3d.smul (candWeight c) c.pose.rotation)))) := by
  induction cands generalizing w t r with
  | nil =>
    simp [avgAccum, translationSum, rotationSum, Translation3d.transAddZeroRight,
      Rotation3d.rotAddZeroRight]
  | cons c rest ih =>
    cases hc : c.ambiguity with
    | none =>
      have hk : knownAmbiguity c = false := by simp [knownAmbiguity, hc]
      simp only [avgAccum, hc, List.filter_cons, hk, Bool.false_eq_true, if_false]
      exact ih w t r
    | some a =>
      have hk : knownAmbiguity c = true := by simp [knownAmbiguity, hc]
      have hw : candWeight c = 1 - a := by simp [candWeight, ambVal, hc]
      simp only [avgAccum, hc, List.filter_cons, hk, if_true, List.map_cons,
        List.sum_cons, translationSum, rotationSum, List.foldr_cons]
      rw [ih]
      simp only [translationSum, rotationSum, hw, Prod.mk.injEq]
      refine ⟨by ring, ?_, ?_⟩
      · rw [← Translation3d.transAddAssoc]
      · rw [← Rotation3d.rotAddAssoc]

/-- If candidate generation produced no candidates, every strategy branch of `Update`
reports no result. -/
theorem update_none_of_no_candidates (est : PhotonPoseEstimator)
    (r : PhotonPipelineResult) (h : candidatesOf est r = []) :
    (Update est r).1 = none := by
  cases hst : est.strategy <;>
    simp [Update, hst, h, LowestAmbiguityStrategy, ClosestToCameraHeightStrategy,
      ClosestToReferencePoseStrategy, ClosestToLastPoseStrategy, closestToPose,
      AverageBestTargetsStrategy, argminFirst, avgAccum, List.filter]

/-- `argminFirst` returns `none` exactly on the empty list. -/
theorem argminFirst_eq_none (f : α → ℚ) (l : List α) :
    argminFirst f l = none ↔ l = [] := by
  cases l with
  | nil => simp [argminFirst]
  | cons x rest =>
    simp only [argminFirst]
    cases argminFirst f rest with
    | none => simp
    | some b =>
      constructor
      · intro h; by_cases hlt : f b < f x <;> simp [hlt] at h
      · intro h; cases h

/-- `argminFirst` on a non-empty list returns the first element attaining the minimum:
it is a member, its value is a lower bound, and every element strictly before it has a
strictly larger value. -/
theorem argminFirst_spec (f : α → ℚ) (l : List α) (hne : l ≠ []) :
    ∃ a l₁ l₂, argminFirst f l = some a ∧ l = l₁ ++ a :: l₂ ∧
      (∀ b ∈ l, f a ≤ f b) ∧ (∀ b ∈ l₁, f a < f b) := by
  induction l with
  | nil => exact absurd rfl hne
  | cons x rest ih =>
    cases h : argminFirst f rest with
    | none =>
      have hrest : rest = [] := (argminFirst_eq_none f rest).mp h
      subst hrest
      refine ⟨x, [], [], ?_, rfl, ?_, ?_⟩
      · simp [argminFirst]
      · intro b hb; simp at hb; subst hb; exact le_refl _
      · intro b hb; simp at hb
    | some b =>
      have hrne : rest ≠ [] := by
        intro hr; rw [hr] at h; simp [argminFirst] at h
      obtain ⟨a, l₁, l₂, hmin, hdecomp, hlb, hfirst⟩ := ih hrne
      have hab : a = b := by rw [hmin] at h; exact Option.some.inj h
      subst hab
      by_cases hlt : f a < f x
      · refine ⟨a, x :: l₁, l₂, ?_, by rw [hdecomp]; rfl, ?_, ?_⟩
        · simp [argminFirst, h, hlt]
        · intro c hc
          rcases List.mem_cons.mp hc with rfl | hc
          · exact le_of_lt hlt
          · exact hlb c hc
        · intro c hc
          rcases List.mem_cons.mp hc with rfl | hc
          · exact hlt
          · exact hfirst c hc
      · refine ⟨x, [], rest, ?_, rfl, ?_, ?_⟩
        · simp [argminFirst, h, hlt]
        · intro c hc
          rcases List.mem_cons.mp hc with rfl | hc
          · exact le_refl _
          · exact le_trans (not_lt.mp hlt) (hlb c hc)
        · intro c hc; simp at hc

/-- C1: for every `FrameResult` whose target sequence is empty and every engine state
(hence every one of the five strategies), `Update` returns no result — an absent
optional, never a fault or a default pose. -/
theorem update_empty_targets_none (est : PhotonPoseEstimator)
    (r : PhotonPipelineResult) (h : r.targets = []) :
    (Update est r).1 = none := by
  apply update_none_of_no_candidates
  simp [candidatesOf, h]

/-- Witness for C1 at a concrete estimator and an empty frame. -/
theorem update_empty_targets_none_witness :
    (Update
      ⟨[], PoseStrategy.AVERAGE_BEST_TARGETS, ⟨⟨0, 0, 0⟩, ⟨1, 0, 0, 0⟩⟩,
        ⟨⟨0, 0, 0⟩, ⟨1, 0, 0, 0⟩⟩, ⟨⟨0, 0, 0⟩, ⟨1, 0, 0, 0⟩⟩, 0⟩
      ⟨[], 0⟩).1 = none :=
  update_empty_targets_none _ _ rfl

/-- C3: no candidate (hence no returned pose) is derived from an observation whose tag
id is absent from the field layout — every candidate's source tag id resolves in the
layout — and a frame all of whose observations have unmapped tag ids yields no result
from `Update`. -/
theorem update_unknown_tags_excluded (est : PhotonPoseEstimator)
    (r : PhotonPipelineResult) :
    (∀ c ∈ candidatesOf est r, (lookupTag est.aprilTags c.sourceTagId).isSome = true) ∧
    ((∀ t ∈ r.targets, lookupTag est.aprilTags t.tagId = none) →
      (Update est r).1 = none) := by
  constructor
  · intro c hc
    simp only [candidatesOf, List.mem_filterMap] at hc
    obtain ⟨t, ht, heq⟩ := hc
    cases hl : lookupTag est.aprilTags t.tagId with
    | none => rw [hl] at heq; exact Option.noConfusion heq
    | some p =>
      rw [hl] at heq
      have hc2 := Option.some.inj heq
      rw [← hc2]
      simp [hl]
  · intro hall
    apply update_none_of_no_candidates
    simp only [candidatesOf]
    rw [List.filterMap_eq_nil_iff]
    intro t ht
    rw [hall t ht]
    rfl

/-- Witness for C3: a frame whose only observation carries tag id 2 while the layout
maps only tag id 1 produces no result. -/
theorem update_unknown_tags_excluded_witness :
    (Update
      ⟨[(1, ⟨⟨1, 2, 3⟩, ⟨1, 0, 0, 0⟩⟩)], PoseStrategy.LOWEST_AMBIGUITY,
        ⟨⟨0, 0, 0⟩, ⟨1, 0, 0, 0⟩⟩, ⟨⟨0, 0, 0⟩, ⟨1, 0, 0, 0⟩⟩,
        ⟨⟨0, 0, 0⟩, ⟨1, 0, 0, 0⟩⟩, 0⟩
      ⟨[⟨2, some 0, ⟨⟨0, 0, 0⟩, ⟨1, 0, 0, 0⟩⟩, none⟩], 4⟩).1 = none :=
  (update_unknown_tags_excluded _ _).2 (by with_unfolding_all decide)

/-- C4: on a non-empty candidate list whose ambiguities are all known,
`LowestAmbiguityStrategy` returns the pose of the candidate with the minimum ambiguity
value, and that candidate is the first such in observation order: every candidate
strictly before it has a strictly larger ambiguity. -/
theorem lowest_ambiguity_first_min (cands : List Candidate) (ts : ℚ)
    (hne : cands ≠ []) (hall : ∀ c ∈ cands, knownAmbiguity c = true) :
    ∃ a l₁ l₂, cands = l₁ ++ a :: l₂ ∧
      LowestAmbiguityStrategy cands ts = some ⟨a.pose, ts⟩ ∧
      (∀ b ∈ cands, ambVal a ≤ ambVal b) ∧ ∀ b ∈ l₁, ambVal a < ambVal b := by
  have hf : cands.filter knownAmbiguity = cands := List.filter_eq_self.mpr hall
  obtain ⟨a, l₁, l₂, hmin, hdec, hlb, hfirst⟩ := argminFirst_spec ambVal cands hne
  refine ⟨a, l₁, l₂, hdec, ?_, hlb, hfirst⟩
  simp [LowestAmbiguityStrategy, hf, hmin]

/-- Witness for C4 at the spec's example ambiguities 0.8, 0.1, 0.5. -/
theorem lowest_ambiguity_first_min_witness :
    ∃ a l₁ l₂,
      ([⟨⟨⟨1, 0, 0⟩, ⟨1, 0, 0, 0⟩⟩, some (4/5), 1⟩,
        ⟨⟨⟨2, 0, 0⟩, ⟨1, 0, 0, 0⟩⟩, some (1/10), 2⟩,
        ⟨⟨⟨3, 0, 0⟩, ⟨1, 0, 0, 0⟩⟩, some (1/2), 3⟩] : List Candidate) =
          l₁ ++ a :: l₂ ∧
      LowestAmbiguityStrategy
        [⟨⟨⟨1, 0, 0⟩, ⟨1, 0, 0, 0⟩⟩, some (4/5), 1⟩,
         ⟨⟨⟨2, 0, 0⟩, ⟨1, 0, 0, 0⟩⟩, some (1/10), 2⟩,
         ⟨⟨⟨3, 0, 0⟩, ⟨1, 0, 0, 0⟩⟩, some (1/2), 3⟩] 7 = some ⟨a.pose, 7⟩ ∧
      (∀ b ∈ ([⟨⟨⟨1, 0, 0⟩, ⟨1, 0, 0, 0⟩⟩, some (4/5), 1⟩,
         ⟨⟨⟨2, 0, 0⟩, ⟨1, 0, 0, 0⟩⟩, some (1/10), 2⟩,
         ⟨⟨⟨3, 0, 0⟩, ⟨1, 0, 0, 0⟩⟩, some (1/2), 3⟩] : List Candidate),
        ambVal a ≤ ambVal b) ∧ ∀ b ∈ l₁, ambVal a < ambVal b :=
  lowest_ambiguity_first_min _ 7 (by with_unfolding_all decide) (by with_unfolding_all decide)

/-- C5: under the closest-to-last-pose strategy, a successful `Update` leaves
`lastPose` equal to the returned pose, and an `Update` with no result leaves the whole
engine state (in particular `lastPose`) unchanged. -/
theorem update_last_pose_feedback (est : PhotonPoseEstimator)
    (r : PhotonPipelineResult) (h : est.strategy = PoseStrategy.CLOSEST_TO_LAST_POSE) :
    (∀ er, (Update est r).1 = some er →
      ((Update est r).2).lastPose = er.estimatedPose) ∧
    ((Update est r).1 = none → (Update est r).2 = est) := by
  cases hsel : ClosestToLastPoseStrategy est (candidatesOf est r) r.timestamp with
  | none =>
    constructor
    · intro er her
      simp [Update, h, hsel] at her
    · intro _
      simp [Update, h, hsel]
  | some er0 =>
    constructor
    · intro er her
      simp only [Update, h, hsel] at her ⊢
      simp at her
      rw [← her]
    · intro hn
      simp [Update, h, hsel] at hn

/-- Witness for C5: a successful closest-to-last-pose update stores the returned pose
in `lastPose`. -/
theorem update_last_pose_feedback_witness :
    ((Update
      ⟨[(1, ⟨⟨1, 2, 3⟩, ⟨1, 0, 0, 0⟩⟩)], PoseStrategy.CLOSEST_TO_LAST_POSE,
        ⟨⟨0, 0, 0⟩, ⟨1, 0, 0, 0⟩⟩, ⟨⟨0, 0, 0⟩, ⟨1, 0, 0, 0⟩⟩,
        ⟨⟨0, 0, 0⟩, ⟨1, 0, 0, 0⟩⟩, 0⟩
      ⟨[⟨1, some 0, ⟨⟨0, 0, 0⟩, ⟨1, 0, 0, 0⟩⟩, none⟩], 5⟩).2).lastPose =
      (⟨⟨⟨1, 2, 3⟩, ⟨1, 0, 0, 0⟩⟩, 5⟩ : EstimatedRobotPose).estimatedPose :=
  (update_last_pose_feedback _ _ rfl).1 ⟨⟨⟨1, 2, 3⟩, ⟨1, 0, 0, 0⟩⟩, 5⟩ (by with_unfolding_all decide)

/-- C7: for every strategy other than closest-to-last-pose, `Update` leaves the engine
state unchanged, so a second `Update` with the same frame and the resulting state
returns the identical output — `Update` is a deterministic pure function of frame and
state. -/
theorem update_pure_idempotent (est : PhotonPoseEstimator)
    (r : PhotonPipelineResult) (h : est.strategy ≠ PoseStrategy.CLOSEST_TO_LAST_POSE) :
    (Update est r).2 = est ∧ Update ((Update est r).2) r = Update est r := by
  have h2 : (Update est r).2 = est := by
    cases hst : est.strategy
    case CLOSEST_TO_LAST_POSE => exact absurd hst h
    all_goals simp [Update, hst]
  exact ⟨h2, by rw [h2]⟩

/-- Witness for C7 at a concrete lowest-ambiguity estimator and frame. -/
theorem update_pure_idempotent_witness :
    ((Update
      ⟨[(1, ⟨⟨1, 2, 3⟩, ⟨1, 0, 0, 0⟩⟩)], PoseStrategy.LOWEST_AMBIGUITY,
        ⟨⟨0, 0, 0⟩, ⟨1, 0, 0, 0⟩⟩, ⟨⟨0, 0, 0⟩, ⟨1, 0, 0, 0⟩⟩,
        ⟨⟨0, 0, 0⟩, ⟨1, 0, 0, 0⟩⟩, 0⟩
      ⟨[⟨1, some 0, ⟨⟨0, 0, 0⟩, ⟨1, 0, 0, 0⟩⟩, none⟩], 5⟩).2 =
      ⟨[(1, ⟨⟨1, 2, 3⟩, ⟨1, 0, 0, 0⟩⟩)], PoseStrategy.LOWEST_AMBIGUITY,
        ⟨⟨0, 0, 0⟩, ⟨1, 0, 0, 0⟩⟩, ⟨⟨0, 0, 0⟩, ⟨1, 0, 0, 0⟩⟩,
        ⟨⟨0, 0, 0⟩, ⟨1, 0, 0, 0⟩⟩, 0⟩) ∧
    Update
      ((Update
        ⟨[(1, ⟨⟨1, 2, 3⟩, ⟨1, 0, 0, 0⟩⟩)], PoseStrategy.LOWEST_AMBIGUITY,
          ⟨⟨0, 0, 0⟩, ⟨1, 0, 0, 0⟩⟩, ⟨⟨0, 0, 0⟩, ⟨1, 0, 0, 0⟩⟩,
          ⟨⟨0, 0, 0⟩, ⟨1, 0, 0, 0⟩⟩, 0⟩
        ⟨[⟨1, some 0, ⟨⟨0, 0, 0⟩, ⟨1, 0, 0, 0⟩⟩, none⟩], 5⟩).2)
      ⟨[⟨1, some 0, ⟨⟨0, 0, 0⟩, ⟨1, 0, 0, 0⟩⟩, none⟩], 5⟩ =
    Update
      ⟨[(1, ⟨⟨1, 2, 3⟩, ⟨1, 0, 0, 0⟩⟩)], PoseStrategy.LOWEST_AMBIGUITY,
        ⟨⟨0, 0, 0⟩, ⟨1, 0, 0, 0⟩⟩, ⟨⟨0, 0, 0⟩, ⟨1, 0, 0, 0⟩⟩,
        ⟨⟨0, 0, 0⟩, ⟨1, 0, 0, 0⟩⟩, 0⟩
      ⟨[⟨1, some 0, ⟨⟨0, 0, 0⟩, ⟨1, 0, 0, 0⟩⟩, none⟩], 5⟩ :=
  update_pure_idempotent _ _ (by with_unfolding_all decide)

/-- C2: in the average-best-targets strategy, each candidate with known ambiguity gets
weight `1 − ambiguity`, candidates with unknown ambiguity are excluded entirely, and
when the weight sum is non-zero the output translation is the weighted arithmetic mean
of the contributing candidate translations. -/
theorem average_weighted_mean (cands : List Candidate) (ts : ℚ)
    (hW : ((cands.filter knownAmbiguity).map candWeight).sum ≠ 0) :
    (AverageBestTargetsStrategy cands ts).map (fun er => er.estimatedPose.translation) =
      some (Translation3d.smul
        (1 / ((cands.filter knownAmbiguity).map candWeight).sum)
        (translationSum ((cands.filter knownAmbiguity).map
          (fun c => Translation3d.smul (candWeight c) c.pose.translation)))) := by
  have hacc := avgAccum_spec cands 0 ⟨0, 0, 0⟩ ⟨0, 0, 0, 0⟩
  simp [AverageBestTargetsStrategy, hacc, Translation3d.transAddZeroLeft,
    Rotation3d.rotAddZeroLeft, hW]

/-- Witness for C2 at the spec's example: ambiguities 0 and 0.5 (weights 1 and 0.5) at
translations (1,2,3) and (4,5,6) blend to ((1,2,3) + 0.5·(4,5,6)) / 1.5 = (2,3,4). -/
theorem average_weighted_mean_witness :
    (AverageBestTargetsStrategy
      [⟨⟨⟨1, 2, 3⟩, ⟨1, 0, 0, 0⟩⟩, some 0, 1⟩,
       ⟨⟨⟨4, 5, 6⟩, ⟨1, 0, 0, 0⟩⟩, some (1/2), 2⟩] 9).map
      (fun er => er.estimatedPose.translation) = some ⟨2, 3, 4⟩ := by
  rw [average_weighted_mean _ _ (by with_unfolding_all decide)]
  with_unfolding_all decide

/-- C6: whenever the candidate weights sum to zero — in particular when every candidate
has unknown ambiguity, so nothing contributes — the average-best-targets strategy
returns no result instead of dividing by the zero weight sum. -/
theorem average_zero_weight_none (cands : List Candidate) (ts : ℚ)
    (h : ((cands.filter knownAmbiguity).map candWeight).sum = 0) :
    AverageBestTargetsStrategy cands ts = none := by
  have hacc := avgAccum_spec cands 0 ⟨0, 0, 0⟩ ⟨0, 0, 0, 0⟩
  simp [AverageBestTargetsStrategy, hacc, h]

/-- Witness for C6: a single candidate with unknown ambiguity yields a zero weight sum
and no result. -/
theorem average_zero_weight_none_witness :
    AverageBestTargetsStrategy
      [⟨⟨⟨1, 2, 3⟩, ⟨1, 0, 0, 0⟩⟩, none, 3⟩] 1 = none :=
  average_zero_weight_none _ 1 (by with_unfolding_all decide)

end photonlib

namespace photonvision

/-- C8: the contour-filtering predicate keeps a contour exactly when all three checks
pass: the area ratio (contour area over image area) lies inclusively between the
sigmoid-mapped area bounds, the contour area lies strictly between the scaled
minimum-area-rectangle extent bounds, and the bounding-box aspect ratio lies inclusively
between the configured ratio bounds. -/
theorem filterContour_keep_iff (sigmoid : ℚ → ℚ) (params : FilterContoursParams)
    (c : Contour) :
    filterContourKeep sigmoid params c = true ↔
      ((sigmoid params.m_area.first ≤ c.area / params.m_camProperties.imageArea ∧
        c.area / params.m_camProperties.imageArea ≤ sigmoid params.m_area.second) ∧
       (params.m_extent.first * c.minAreaRectArea / 100 < c.area ∧
        c.area < params.m_extent.second * c.minAreaRectArea / 100) ∧
       (params.m_ratio.first ≤ (c.boundingRectWidth : ℚ) / (c.boundingRectHeight : ℚ) ∧
        (c.boundingRectWidth : ℚ) / (c.boundingRectHeight : ℚ) ≤
          params.m_ratio.second)) := by
  simp only [filterContourKeep]
  split_ifs with h1 h2 h3
  · simp only [Bool.false_eq_true, false_iff]
    rintro ⟨⟨ha, hb⟩, -, -⟩
    rcases h1 with h | h
    · exact absurd ha (not_le.mpr h)
    · exact absurd hb (not_le.mpr h)
  · simp only [Bool.false_eq_true, false_iff]
    rintro ⟨-, ⟨hc, hd⟩, -⟩
    rcases h2 with h | h
    · exact absurd hc (not_lt.mpr h)
    · exact absurd hd (not_lt.mpr h)
  · simp only [Bool.false_eq_true, false_iff]
    rintro ⟨-, -, he, hf⟩
    rcases h3 with h | h
    · exact absurd he (not_le.mpr h)
    · exact absurd hf (not_le.mpr h)
  · simp only [true_iff]
    push_neg at h1 h2 h3
    exact ⟨⟨h1.1, h1.2⟩, ⟨h2.1, h2.2⟩, h3.1, h3.2⟩

/-- The loop of `process` started on any accumulator equals the accumulator followed by
the loop started on the empty accumulator. -/
theorem processLoop_acc (sigmoid : ℚ → ℚ) (params : FilterContoursParams)
    (acc input : List Contour) :
    processLoop sigmoid params acc input =
      acc ++ processLoop sigmoid params [] input := by
  induction input generalizing acc with
  | nil => simp [processLoop]
  | cons c rest ih =>
    by_cases hf : c.faulty = true
    · simp only [processLoop, filterContour, hf, if_true]
      exact ih acc
    · by_cases hk : filterContourKeep sigmoid params c = true
      · simp only [processLoop, filterContour, hf, if_false, hk, if_true,
          Bool.false_eq_true, List.nil_append]
        rw [ih (acc ++ [c]), ih [c], List.append_assoc]
      · simp only [processLoop, filterContour, hf, if_false, hk,
          Bool.false_eq_true, List.nil_append]
        exact ih acc

/-- The loop of `process` started on the empty accumulator returns an order-preserving
subsequence of its input. -/
theorem processLoop_sublist (sigmoid : ℚ → ℚ) (params : FilterContoursParams)
    (input : List Contour) :
    (processLoop sigmoid params [] input).Sublist input := by
  induction input with
  | nil => simp [processLoop]
  | cons c rest ih =>
    by_cases hf : c.faulty = true
    · simp only [processLoop, filterContour, hf, if_true]
      exact ih.cons c
    · by_cases hk : filterContourKeep sigmoid params c = true
      · simp only [processLoop, filterContour, hf, if_false, hk, if_true,
          Bool.false_eq_true, List.nil_append]
        rw [processLoop_acc]
        exact ih.cons₂ c
      · simp only [processLoop, filterContour, hf, if_false, hk,
          Bool.false_eq_true, List.nil_append]
        exact ih.cons c

/-- Skipping a faulty contour: the loop on `l1 ++ c :: l2` with `c` faulty equals the
loop on `l1 ++ l2`, from any accumulator. -/
theorem processLoop_faulty_skip (sigmoid : ℚ → ℚ) (params : FilterContoursParams)
    (acc l1 l2 : List Contour) (c : Contour) (h : c.faulty = true) :
    processLoop sigmoid params acc (l1 ++ c :: l2) =
      processLoop sigmoid params acc (l1 ++ l2) := by
  induction l1 generalizing acc with
  | nil =>
    simp only [List.nil_append, processLoop, filterContour, h, if_true]
  | cons d t ih =>
    simp only [List.cons_append, processLoop]
    cases filterContour sigmoid params acc d with
    | error e => exact ih acc
    | ok acc2 => exact ih acc2

/-- C9: a contour whose processing throws (the `faulty` flag) is caught, excluded from
the output, and the rest of the batch is processed as if it were absent — the failure
neither aborts the batch nor propagates to the caller. -/
theorem process_skips_faulty (sigmoid : ℚ → ℚ) (params : FilterContoursParams)
    (st l1 l2 : List Contour) (c : Contour) (h : c.faulty = true) :
    process sigmoid params st (l1 ++ c :: l2) = process sigmoid params st (l1 ++ l2) := by
  simp only [process]
  exact processLoop_faulty_skip sigmoid params [] l1 l2 c h

/-- Witness for C9: a faulty contour between two healthy ones is dropped while the
batch continues. -/
theorem process_skips_faulty_witness :
    process (fun q => q) ⟨⟨0, 1⟩, ⟨0, 10⟩, ⟨0, 100⟩, ⟨1⟩⟩ []
        ([⟨1/2, 1, 2, 2, false⟩] ++ ⟨1/3, 1, 1, 1, true⟩ :: [⟨1/4, 1, 3, 3, false⟩]) =
      process (fun q => q) ⟨⟨0, 1⟩, ⟨0, 10⟩, ⟨0, 100⟩, ⟨1⟩⟩ []
        ([⟨1/2, 1, 2, 2, false⟩] ++ [⟨1/4, 1, 3, 3, false⟩]) :=
  process_skips_faulty (fun q => q) ⟨⟨0, 1⟩, ⟨0, 10⟩, ⟨0, 100⟩, ⟨1⟩⟩ []
    [⟨1/2, 1, 2, 2, false⟩] [⟨1/4, 1, 3, 3, false⟩] ⟨1/3, 1, 1, 1, true⟩ rfl

/-- C10: `process` returns an order-preserving subsequence of the current input only:
its result does not depend on the pre-call contents of `m_filteredContours` (the field
is cleared on entry, so nothing kept by a previous call can reappear), and the kept
contours appear in input order. -/
theorem process_stateless_sublist (sigmoid : ℚ → ℚ) (params : FilterContoursParams)
    (st st2 input : List Contour) :
    process sigmoid params st input = process sigmoid params st2 input ∧
    (process sigmoid params st input).Sublist input :=
  ⟨rfl, processLoop_sublist sigmoid params input⟩

end photonvision
